import Mathlib

/-!
Verification of the batching core in `src/batcher.js` (`createBatcher`).

Modelling choices:
- A product record is opaque to the core: the code only ever serializes it
  (`JSON.stringify(product)`) and measures UTF-8 bytes. We therefore represent
  a record by the byte sequence of its JSON serialization (`List Nat`).
- `JSON.stringify` of an array is the byte `[`, the element serializations
  joined by the byte `,`, and the byte `]`; `stringifyBatch` embeds that.
- JavaScript numbers are IEEE doubles. Byte sizes are exact integers well
  inside the 2^53 range, so they are embedded as `Nat`. The configured cap
  `maxSizeBytes` (`maxSizeMB * 1_048_576`) may be fractional and is embedded
  as an exact rational `ℚ`; the comparison `batchSize > maxSizeBytes * 0.95`
  is embedded as the exact rational comparison.
- The sink (`externalService.call`) is a side effect; emissions are collected
  in a trace, each entry being the batch handed to the sink (its serialized
  payload is `stringifyBatch` of it).
-/

namespace Batcher

/-- A record, represented by the UTF-8 bytes of its JSON serialization. -/
abbrev Product := List Nat

/-- Byte code of the character open-bracket. -/
def lbrack : Nat := 91

/-- Byte code of the comma separator. -/
def commaByte : Nat := 44

/-- Byte code of the character close-bracket. -/
def rbrack : Nat := 93

/-- Comma-join of serialized elements, as inside `JSON.stringify` of an array. -/
def joinComma : List Product → List Nat
  | [] => []
  | [p] => p
  | p :: q :: ps => p ++ commaByte :: joinComma (q :: ps)

/-- `JSON.stringify(products)` for an array of records, as UTF-8 bytes. -/
def stringifyBatch (products : List Product) : List Nat :=
  lbrack :: (joinComma products ++ [rbrack])

/-- `calculateBatchSize` (src/batcher.js lines 22-27): byte length of the
serialized batch; 2 for the empty batch, the byte length of the two brackets. -/
def calculateBatchSize (products : List Product) : Nat :=
  if products.length = 0 then 2
  else (stringifyBatch products).length

/-- The closure state of `createBatcher` (src/batcher.js lines 10-16). -/
structure BatcherState where
  currentBatch : List Product
  currentBatchSize : Nat
  totalProductsProcessed : Nat
  totalBatchesSent : Nat
  totalSizeProcessed : Nat
  totalFullBatchesSize : Nat
  fullBatchCount : Nat
deriving DecidableEq, Repr

/-- The freshly created batcher: all counters zero, empty batch. -/
def initState : BatcherState :=
  { currentBatch := []
    currentBatchSize := 0
    totalProductsProcessed := 0
    totalBatchesSent := 0
    totalSizeProcessed := 0
    totalFullBatchesSize := 0
    fullBatchCount := 0 }

/-- `estimateProductSize` (src/batcher.js lines 34-42): serialized byte length
of the record plus 1 for the comma separator when the batch is non-empty. -/
def estimateProductSize (currentBatch : List Product) (product : Product) : Nat :=
  product.length + (if currentBatch.length > 0 then 1 else 0)

/-- `sendBatch` (src/batcher.js lines 47-77) with the sink call recorded in a
trace: no-op on an empty batch; otherwise updates the statistics (a batch is
full when its exact size strictly exceeds 95 percent of the cap), hands the
batch to the sink, and resets the current batch. -/
def sendBatch (maxSizeBytes : ℚ) (s : BatcherState) :
    BatcherState × List (List Product) :=
  if s.currentBatch.length = 0 then (s, [])
  else
    let batchSize := (stringifyBatch s.currentBatch).length
    ({ currentBatch := []
       currentBatchSize := 0
       totalProductsProcessed := s.totalProductsProcessed + s.currentBatch.length
       totalBatchesSent := s.totalBatchesSent + 1
       totalSizeProcessed := s.totalSizeProcessed + batchSize
       totalFullBatchesSize :=
         if (batchSize : ℚ) > maxSizeBytes * (95 / 100)
         then s.totalFullBatchesSize + batchSize else s.totalFullBatchesSize
       fullBatchCount :=
         if (batchSize : ℚ) > maxSizeBytes * (95 / 100)
         then s.fullBatchCount + 1 else s.fullBatchCount },
     [s.currentBatch])

/-- `addProduct` (src/batcher.js lines 83-108): if the estimated new size would
exceed the cap and the batch is non-empty, send the current batch and start a
new one holding only this record (size recomputed exactly); otherwise append
the record, recomputing the exact size on the first three records and every
100th, and using the incremental estimate elsewhere. -/
def addProduct (maxSizeBytes : ℚ) (s : BatcherState) (product : Product) :
    BatcherState × List (List Product) :=
  let estimatedAddition := estimateProductSize s.currentBatch product
  let estimatedNewSize := s.currentBatchSize + estimatedAddition
  if (estimatedNewSize : ℚ) > maxSizeBytes ∧ s.currentBatch.length > 0 then
    let sent := sendBatch maxSizeBytes s
    ({ sent.1 with
        currentBatch := [product]
        currentBatchSize := calculateBatchSize [product] },
     sent.2)
  else
    let newBatch := s.currentBatch ++ [product]
    let newSize :=
      if newBatch.length ≤ 3 ∨ newBatch.length % 100 = 0
      then calculateBatchSize newBatch
      else estimatedNewSize
    ({ s with currentBatch := newBatch, currentBatchSize := newSize }, [])

/-- `addProducts` (src/batcher.js lines 113-138): calls `addProduct` on each
element in order; the progress logging has no effect on the state. -/
def addProducts (maxSizeBytes : ℚ) (s : BatcherState) :
    List Product → BatcherState × List (List Product)
  | [] => (s, [])
  | p :: ps =>
    let first := addProduct maxSizeBytes s p
    let rest := addProducts maxSizeBytes first.1 ps
    (rest.1, first.2 ++ rest.2)

/-- The data reported by `printSummary` when at least one batch was sent
(src/batcher.js lines 165-202). Sizes are kept in bytes; the source divides
by 1 MiB purely for display. `fullInfo` is present exactly when the source
prints the full-batch line, `nonFullSize` exactly when it prints the partial
line; `nonFullBatches` is the source's `partialBatches`, an integer
subtraction. -/
structure SummaryDetails where
  avgBatchSize : ℚ
  avgProductsPerBatch : ℤ
  overallUtilization : ℚ
  fullInfo : Option (Nat × ℚ × ℚ)
  nonFullBatches : ℤ
  nonFullSize : Option ℤ
deriving DecidableEq, Repr

/-- `printSummary` (src/batcher.js lines 151-208), logging abstracted to the
reported data: `none` models the branch that prints "No batches were sent."
and performs no division. Utilization ratios: the source computes
(avg in MB) / maxSizeMB which equals (avg in bytes) / maxSizeBytes. -/
def printSummary (maxSizeBytes : ℚ) (s : BatcherState) : Option SummaryDetails :=
  if s.totalBatchesSent > 0 then
    let avgBatchSize : ℚ := (s.totalSizeProcessed : ℚ) / (s.totalBatchesSent : ℚ)
    let nonFullBatches : ℤ := (s.totalBatchesSent : ℤ) - (s.fullBatchCount : ℤ)
    some
      { avgBatchSize := avgBatchSize
        avgProductsPerBatch :=
          round ((s.totalProductsProcessed : ℚ) / (s.totalBatchesSent : ℚ))
        overallUtilization := avgBatchSize / maxSizeBytes * 100
        fullInfo :=
          if s.fullBatchCount > 0 then
            some (s.fullBatchCount,
              (s.totalFullBatchesSize : ℚ) / (s.fullBatchCount : ℚ),
              (s.totalFullBatchesSize : ℚ) / (s.fullBatchCount : ℚ) / maxSizeBytes * 100)
          else none
        nonFullBatches := nonFullBatches
        nonFullSize :=
          if nonFullBatches > 0
          then some ((s.totalSizeProcessed : ℤ) - (s.totalFullBatchesSize : ℤ))
          else none }
  else none

/-- `flush` (src/batcher.js lines 143-146): send any pending batch, then
produce the summary. -/
def flush (maxSizeBytes : ℚ) (s : BatcherState) :
    BatcherState × List (List Product) × Option SummaryDetails :=
  let sent := sendBatch maxSizeBytes s
  (sent.1, sent.2, printSummary maxSizeBytes sent.1)

/-- `sendBatch` with the sink boundary made explicit: `sinkOk payload = false`
models `externalService.call` (src/batcher.js line 72) raising an exception.
The statistics update (lines 54-63) precedes the sink call, and the reset of
`currentBatch`/`currentBatchSize` (lines 75-76) comes only after it, so on a
raise the state visible to the caller is the mid state: statistics already
count the batch, the current batch is not reset. -/
def sendBatchExc (maxSizeBytes : ℚ) (sinkOk : List Product → Bool)
    (s : BatcherState) :
    Except BatcherState (BatcherState × List (List Product)) :=
  if s.currentBatch.length = 0 then .ok (s, [])
  else
    let batchSize := (stringifyBatch s.currentBatch).length
    let sMid : BatcherState :=
      { s with
        totalProductsProcessed := s.totalProductsProcessed + s.currentBatch.length
        totalBatchesSent := s.totalBatchesSent + 1
        totalSizeProcessed := s.totalSizeProcessed + batchSize
        totalFullBatchesSize :=
          if (batchSize : ℚ) > maxSizeBytes * (95 / 100)
          then s.totalFullBatchesSize + batchSize else s.totalFullBatchesSize
        fullBatchCount :=
          if (batchSize : ℚ) > maxSizeBytes * (95 / 100)
          then s.fullBatchCount + 1 else s.fullBatchCount }
    if sinkOk s.currentBatch then
      .ok ({ sMid with currentBatch := [], currentBatchSize := 0 },
        [s.currentBatch])
    else
      .error sMid

/-- `addProduct` over the explicit sink boundary: an exception raised inside
`sendBatch` propagates to the caller of `addProduct` untouched. -/
def addProductExc (maxSizeBytes : ℚ) (sinkOk : List Product → Bool)
    (s : BatcherState) (product : Product) :
    Except BatcherState (BatcherState × List (List Product)) :=
  let estimatedAddition := estimateProductSize s.currentBatch product
  let estimatedNewSize := s.currentBatchSize + estimatedAddition
  if (estimatedNewSize : ℚ) > maxSizeBytes ∧ s.currentBatch.length > 0 then
    match sendBatchExc maxSizeBytes sinkOk s with
    | .error e => .error e
    | .ok sent =>
      .ok ({ sent.1 with
              currentBatch := [product]
              currentBatchSize := calculateBatchSize [product] },
        sent.2)
  else
    let newBatch := s.currentBatch ++ [product]
    let newSize :=
      if newBatch.length ≤ 3 ∨ newBatch.length % 100 = 0
      then calculateBatchSize newBatch
      else estimatedNewSize
    .ok ({ s with currentBatch := newBatch, currentBatchSize := newSize }, [])

/-- `flush` over the explicit sink boundary: an exception raised inside
`sendBatch` propagates to the caller of `flush` untouched (the summary is not
produced in that case). -/
def flushExc (maxSizeBytes : ℚ) (sinkOk : List Product → Bool)
    (s : BatcherState) :
    Except BatcherState (BatcherState × List (List Product) × Option SummaryDetails) :=
  match sendBatchExc maxSizeBytes sinkOk s with
  | .error e => .error e
  | .ok sent => .ok (sent.1, sent.2, printSummary maxSizeBytes sent.1)

/-- One call the caller can make on the batcher object (src/batcher.js
lines 210-214). -/
inductive Op where
  | add (p : Product)
  | addMany (ps : List Product)
  | flushOp
deriving DecidableEq, Repr

/-- Execute one API call, returning the new state and the emitted batches. -/
def step (maxSizeBytes : ℚ) (s : BatcherState) : Op → BatcherState × List (List Product)
  | .add p => addProduct maxSizeBytes s p
  | .addMany ps => addProducts maxSizeBytes s ps
  | .flushOp => sendBatch maxSizeBytes s

/-- Execute a sequence of API calls, collecting emitted batches in order. -/
def run (maxSizeBytes : ℚ) (s : BatcherState) :
    List Op → BatcherState × List (List Product)
  | [] => (s, [])
  | op :: ops =>
    let first := step maxSizeBytes s op
    let rest := run maxSizeBytes first.1 ops
    (rest.1, first.2 ++ rest.2)

/-- The records an API call feeds into the batcher, in order. -/
def opInputs : Op → List Product
  | .add p => [p]
  | .addMany ps => ps
  | .flushOp => []

/-- All records a call sequence feeds into the batcher, in order. -/
def runInputs (ops : List Op) : List Product :=
  (ops.map opInputs).flatten

example : (stringifyBatch [[104, 105], [33]]).length = 6 := by decide

example : (3 : ℚ) < ((100 : Nat) : ℚ) := by decide

example :
    (run 10 initState [Op.add [65, 66, 67], Op.add [68, 69, 70], Op.flushOp]).2 =
      [[[65, 66, 67], [68, 69, 70]]] := by decide

example :
    (run 8 initState [Op.add [65, 66, 67], Op.add [68, 69, 70], Op.flushOp]).2 =
      [[[65, 66, 67]], [[68, 69, 70]]] := by decide

/-! ### Serialized sizes -/

theorem joinComma_length :
    ∀ (l : List Product), l ≠ [] →
      (joinComma l).length = (l.map List.length).sum + (l.length - 1)
  | [], h => absurd rfl h
  | [p], _ => by simp [joinComma]
  | p :: q :: ps, _ => by
    have ih := joinComma_length (q :: ps) (by simp)
    simp only [joinComma, List.length_append, List.length_cons, List.map_cons,
      List.sum_cons] at ih ⊢
    omega

theorem stringifyBatch_length (l : List Product) (h : l ≠ []) :
    (stringifyBatch l).length = (l.map List.length).sum + l.length + 1 := by
  have hl : 1 ≤ l.length := List.length_pos.mpr h
  simp only [stringifyBatch, List.length_cons, List.length_append,
    joinComma_length l h, List.length_singleton, List.length_nil]
  omega

theorem stringifyBatch_singleton (p : Product) :
    (stringifyBatch [p]).length = p.length + 2 := by
  simp [stringifyBatch, joinComma]

theorem stringifyBatch_append_length (l : List Product) (p : Product)
    (h : l ≠ []) :
    (stringifyBatch (l ++ [p])).length =
      (stringifyBatch l).length + p.length + 1 := by
  rw [stringifyBatch_length l h, stringifyBatch_length (l ++ [p]) (by simp)]
  simp
  omega

theorem calculateBatchSize_eq (l : List Product) (h : l ≠ []) :
    calculateBatchSize l = (stringifyBatch l).length := by
  simp [calculateBatchSize, List.length_eq_zero.not.mpr h]

theorem calculateBatchSize_singleton (p : Product) :
    calculateBatchSize [p] = p.length + 2 := by
  rw [calculateBatchSize_eq [p] (by simp), stringifyBatch_singleton]

/-- The incremental estimate is exact on a non-empty batch: appending a record
adds its serialized length plus one comma byte. It is the record serializations
being context independent that makes the estimate drift free. -/
theorem estimate_exact (l : List Product) (p : Product) (h : l ≠ []) :
    (stringifyBatch (l ++ [p])).length =
      (stringifyBatch l).length + estimateProductSize l p := by
  rw [stringifyBatch_append_length l p h, estimateProductSize,
    if_pos (List.length_pos.mpr h)]
  omega

/-! ### The batch-size invariant -/

/-- The state invariant of the accumulator: the tracked size is 0 on an empty
batch, equals the exact serialized size on a non-empty batch, and is within
the cap as soon as the batch holds at least two records. -/
def Inv (maxSizeBytes : ℚ) (s : BatcherState) : Prop :=
  (s.currentBatch = [] → s.currentBatchSize = 0) ∧
  (s.currentBatch ≠ [] →
    s.currentBatchSize = (stringifyBatch s.currentBatch).length) ∧
  (2 ≤ s.currentBatch.length → (s.currentBatchSize : ℚ) ≤ maxSizeBytes)

/-- The statistics invariant: the full-batch counters never outgrow the
overall counters. -/
def StatsInv (s : BatcherState) : Prop :=
  s.fullBatchCount ≤ s.totalBatchesSent ∧
  s.totalFullBatchesSize ≤ s.totalSizeProcessed

theorem initState_inv (cap : ℚ) : Inv cap initState :=
  ⟨fun _ => rfl, fun h => absurd rfl h, fun h => by simp [initState] at h⟩

theorem initState_statsInv : StatsInv initState :=
  ⟨Nat.le_refl 0, Nat.le_refl 0⟩

/-! ### sendBatch lemmas -/

theorem sendBatch_of_empty (cap : ℚ) (s : BatcherState)
    (h : s.currentBatch = []) : sendBatch cap s = (s, []) := by
  simp [sendBatch, h]

theorem sendBatch_fst_currentBatch (cap : ℚ) (s : BatcherState) :
    (sendBatch cap s).1.currentBatch = [] := by
  by_cases h : s.currentBatch.length = 0
  · rw [sendBatch_of_empty cap s (List.length_eq_zero.mp h)]
    exact List.length_eq_zero.mp h
  · simp [sendBatch, h]

theorem sendBatch_fst_currentBatchSize (cap : ℚ) (s : BatcherState)
    (hI : Inv cap s) : (sendBatch cap s).1.currentBatchSize = 0 := by
  by_cases h : s.currentBatch.length = 0
  · rw [sendBatch_of_empty cap s (List.length_eq_zero.mp h)]
    exact hI.1 (List.length_eq_zero.mp h)
  · simp [sendBatch, h]

theorem sendBatch_inv (cap : ℚ) (s : BatcherState) (hI : Inv cap s) :
    Inv cap (sendBatch cap s).1 := by
  refine ⟨fun _ => sendBatch_fst_currentBatchSize cap s hI, fun h => ?_, fun h => ?_⟩
  · exact absurd (sendBatch_fst_currentBatch cap s) h
  · rw [sendBatch_fst_currentBatch cap s] at h
    simp at h

theorem sendBatch_emit (cap : ℚ) (s : BatcherState) (b : List Product)
    (hb : b ∈ (sendBatch cap s).2) :
    b = s.currentBatch ∧ s.currentBatch ≠ [] := by
  by_cases h : s.currentBatch.length = 0
  · rw [sendBatch_of_empty cap s (List.length_eq_zero.mp h)] at hb
    simp at hb
  · simp only [sendBatch, h, if_false] at hb
    refine ⟨by simpa using hb, fun hc => h (by simp [hc])⟩

theorem sendBatch_emit_bound (cap : ℚ) (s : BatcherState) (b : List Product)
    (hI : Inv cap s) (hb : b ∈ (sendBatch cap s).2) (h2 : 2 ≤ b.length) :
    ((stringifyBatch b).length : ℚ) ≤ cap := by
  obtain ⟨rfl, hne⟩ := sendBatch_emit cap s b hb
  have hx := hI.2.1 hne
  have hle := hI.2.2 h2
  rw [← hx]
  exact hle

theorem sendBatch_order (cap : ℚ) (s : BatcherState) :
    (sendBatch cap s).2.flatten ++ (sendBatch cap s).1.currentBatch =
      s.currentBatch := by
  by_cases h : s.currentBatch.length = 0
  · rw [sendBatch_of_empty cap s (List.length_eq_zero.mp h)]
    simp
  · simp [sendBatch, h]

theorem sendBatch_products (cap : ℚ) (s : BatcherState) :
    (sendBatch cap s).1.totalProductsProcessed =
      s.totalProductsProcessed + ((sendBatch cap s).2.map List.length).sum := by
  by_cases h : s.currentBatch.length = 0
  · rw [sendBatch_of_empty cap s (List.length_eq_zero.mp h)]
    simp
  · simp [sendBatch, h]

theorem sendBatch_snd (cap : ℚ) (s : BatcherState) (h : s.currentBatch ≠ []) :
    (sendBatch cap s).2 = [s.currentBatch] := by
  simp only [sendBatch]
  rw [if_neg (fun hc => h (List.length_eq_zero.mp hc))]

/-- The trace model `sendBatch` agrees with the boundary-explicit model on a
sink that never raises. -/
theorem sendBatchExc_refines (cap : ℚ) (s : BatcherState) :
    sendBatchExc cap (fun _ => true) s = Except.ok (sendBatch cap s) := by
  by_cases h : s.currentBatch.length = 0
  · simp [sendBatchExc, sendBatch, h]
  · simp [sendBatchExc, sendBatch, h]

theorem sendBatch_statsInv (cap : ℚ) (s : BatcherState) (h : StatsInv s) :
    StatsInv (sendBatch cap s).1 := by
  by_cases hc : s.currentBatch.length = 0
  · rwa [sendBatch_of_empty cap s (List.length_eq_zero.mp hc)]
  · obtain ⟨h1, h2⟩ := h
    simp only [sendBatch, hc, if_false, StatsInv]
    constructor <;> split <;> omega

/-! ### addProduct lemmas -/

theorem addProduct_overflow (cap : ℚ) (s : BatcherState) (p : Product)
    (h : ((s.currentBatchSize + estimateProductSize s.currentBatch p : ℕ) : ℚ) > cap ∧
      s.currentBatch.length > 0) :
    addProduct cap s p =
      ({ (sendBatch cap s).1 with
          currentBatch := [p]
          currentBatchSize := calculateBatchSize [p] },
        (sendBatch cap s).2) := by
  simp only [addProduct]
  rw [if_pos h]

theorem addProduct_append (cap : ℚ) (s : BatcherState) (p : Product)
    (h : ¬(((s.currentBatchSize + estimateProductSize s.currentBatch p : ℕ) : ℚ) > cap ∧
      s.currentBatch.length > 0)) :
    addProduct cap s p =
      ({ s with
          currentBatch := s.currentBatch ++ [p]
          currentBatchSize :=
            if (s.currentBatch ++ [p]).length ≤ 3 ∨
                (s.currentBatch ++ [p]).length % 100 = 0
            then calculateBatchSize (s.currentBatch ++ [p])
            else s.currentBatchSize + estimateProductSize s.currentBatch p },
        []) := by
  simp only [addProduct]
  rw [if_neg h]

theorem addProduct_inv (cap : ℚ) (s : BatcherState) (p : Product)
    (hI : Inv cap s) : Inv cap (addProduct cap s p).1 := by
  by_cases h : ((s.currentBatchSize + estimateProductSize s.currentBatch p : ℕ) : ℚ) > cap ∧
      s.currentBatch.length > 0
  · rw [addProduct_overflow cap s p h]
    refine ⟨by simp, fun _ => ?_, fun h2 => by simp at h2⟩
    exact calculateBatchSize_eq [p] (by simp)
  · rw [addProduct_append cap s p h]
    refine ⟨by simp, fun _ => ?_, fun h2 => ?_⟩
    · by_cases hrc : (s.currentBatch ++ [p]).length ≤ 3 ∨
          (s.currentBatch ++ [p]).length % 100 = 0
      · simp only [hrc, if_true]
        exact calculateBatchSize_eq _ (by simp)
      · have hb : s.currentBatch ≠ [] := by
          intro hc
          exact hrc (Or.inl (by simp [hc]))
        simp only [hrc, if_false]
        rw [estimate_exact s.currentBatch p hb, hI.2.1 hb]
    · simp only [List.length_append, List.length_singleton] at h2
      rcases not_and_or.mp h with hA | hB
      · have hle : ((s.currentBatchSize + estimateProductSize s.currentBatch p : ℕ) : ℚ) ≤ cap :=
          not_lt.mp hA
        have hb : s.currentBatch ≠ [] := by
          intro hc
          rw [hc] at h2
          simp at h2
        have hexact : calculateBatchSize (s.currentBatch ++ [p]) =
            s.currentBatchSize + estimateProductSize s.currentBatch p := by
          rw [calculateBatchSize_eq _ (by simp),
            estimate_exact s.currentBatch p hb, hI.2.1 hb]
        by_cases hrc : (s.currentBatch ++ [p]).length ≤ 3 ∨
            (s.currentBatch ++ [p]).length % 100 = 0
        · simp only [hrc, if_true]
          rw [hexact]
          exact hle
        · simp only [hrc, if_false]
          exact hle
      · have hb : s.currentBatch = [] := List.length_eq_zero.mp (by omega)
        rw [hb] at h2
        simp at h2

theorem addProduct_order (cap : ℚ) (s : BatcherState) (p : Product) :
    (addProduct cap s p).2.flatten ++ (addProduct cap s p).1.currentBatch =
      s.currentBatch ++ [p] := by
  by_cases h : ((s.currentBatchSize + estimateProductSize s.currentBatch p : ℕ) : ℚ) > cap ∧
      s.currentBatch.length > 0
  · rw [addProduct_overflow cap s p h]
    have ho := sendBatch_order cap s
    rw [sendBatch_fst_currentBatch cap s, List.append_nil] at ho
    simp only
    rw [ho]
  · rw [addProduct_append cap s p h]
    simp

theorem addProduct_emit (cap : ℚ) (s : BatcherState) (p : Product)
    (b : List Product) (hb : b ∈ (addProduct cap s p).2) :
    b = s.currentBatch ∧ s.currentBatch ≠ [] := by
  by_cases h : ((s.currentBatchSize + estimateProductSize s.currentBatch p : ℕ) : ℚ) > cap ∧
      s.currentBatch.length > 0
  · rw [addProduct_overflow cap s p h] at hb
    exact sendBatch_emit cap s b hb
  · rw [addProduct_append cap s p h] at hb
    simp at hb

theorem addProduct_emit_bound (cap : ℚ) (s : BatcherState) (p : Product)
    (b : List Product) (hI : Inv cap s) (hb : b ∈ (addProduct cap s p).2)
    (h2 : 2 ≤ b.length) : ((stringifyBatch b).length : ℚ) ≤ cap := by
  obtain ⟨rfl, hne⟩ := addProduct_emit cap s p b hb
  have hx := hI.2.1 hne
  have hle := hI.2.2 h2
  rw [← hx]
  exact hle

theorem addProduct_products (cap : ℚ) (s : BatcherState) (p : Product) :
    (addProduct cap s p).1.totalProductsProcessed =
      s.totalProductsProcessed +
        ((addProduct cap s p).2.map List.length).sum := by
  by_cases h : ((s.currentBatchSize + estimateProductSize s.currentBatch p : ℕ) : ℚ) > cap ∧
      s.currentBatch.length > 0
  · rw [addProduct_overflow cap s p h]
    exact sendBatch_products cap s
  · rw [addProduct_append cap s p h]
    simp

theorem addProduct_statsInv (cap : ℚ) (s : BatcherState) (p : Product)
    (h : StatsInv s) : StatsInv (addProduct cap s p).1 := by
  by_cases hc : ((s.currentBatchSize + estimateProductSize s.currentBatch p : ℕ) : ℚ) > cap ∧
      s.currentBatch.length > 0
  · rw [addProduct_overflow cap s p hc]
    exact sendBatch_statsInv cap s h
  · rw [addProduct_append cap s p hc]
    exact h

/-! ### addProducts lemmas -/

theorem addProducts_inv (cap : ℚ) :
    ∀ (ps : List Product) (s : BatcherState), Inv cap s →
      Inv cap (addProducts cap s ps).1
  | [], _, h => h
  | p :: ps, s, h =>
    addProducts_inv cap ps (addProduct cap s p).1 (addProduct_inv cap s p h)

theorem addProducts_statsInv (cap : ℚ) :
    ∀ (ps : List Product) (s : BatcherState), StatsInv s →
      StatsInv (addProducts cap s ps).1
  | [], _, h => h
  | p :: ps, s, h =>
    addProducts_statsInv cap ps (addProduct cap s p).1 (addProduct_statsInv cap s p h)

theorem addProducts_order (cap : ℚ) :
    ∀ (ps : List Product) (s : BatcherState),
      (addProducts cap s ps).2.flatten ++ (addProducts cap s ps).1.currentBatch =
        s.currentBatch ++ ps
  | [], s => by simp [addProducts]
  | p :: ps, s => by
    have ih := addProducts_order cap ps (addProduct cap s p).1
    have h1 := addProduct_order cap s p
    show ((addProduct cap s p).2 ++
        (addProducts cap (addProduct cap s p).1 ps).2).flatten ++
        (addProducts cap (addProduct cap s p).1 ps).1.currentBatch =
      s.currentBatch ++ p :: ps
    rw [List.flatten_append, List.append_assoc, ih, ← List.append_assoc, h1,
      List.append_assoc, List.singleton_append]

theorem addProducts_emit_bound (cap : ℚ) :
    ∀ (ps : List Product) (s : BatcherState) (b : List Product), Inv cap s →
      b ∈ (addProducts cap s ps).2 →
      b ≠ [] ∧ (2 ≤ b.length → ((stringifyBatch b).length : ℚ) ≤ cap)
  | [], s, b, _, hb => by simp [addProducts] at hb
  | p :: ps, s, b, hI, hb => by
    have hb' : b ∈ (addProduct cap s p).2 ++
        (addProducts cap (addProduct cap s p).1 ps).2 := hb
    rcases List.mem_append.mp hb' with h1 | h2
    · obtain ⟨rfl, hne⟩ := addProduct_emit cap s p b h1
      exact ⟨hne, fun h2 => addProduct_emit_bound cap s p _ hI h1 h2⟩
    · exact addProducts_emit_bound cap ps (addProduct cap s p).1 b
        (addProduct_inv cap s p hI) h2

theorem addProducts_products (cap : ℚ) :
    ∀ (ps : List Product) (s : BatcherState),
      (addProducts cap s ps).1.totalProductsProcessed =
        s.totalProductsProcessed +
          ((addProducts cap s ps).2.map List.length).sum
  | [], s => by simp [addProducts]
  | p :: ps, s => by
    have ih := addProducts_products cap ps (addProduct cap s p).1
    have h1 := addProduct_products cap s p
    show (addProducts cap (addProduct cap s p).1 ps).1.totalProductsProcessed =
      s.totalProductsProcessed +
        (((addProduct cap s p).2 ++
          (addProducts cap (addProduct cap s p).1 ps).2).map List.length).sum
    rw [ih, h1, List.map_append, List.sum_append]
    omega

/-! ### step and run lemmas -/

theorem step_inv (cap : ℚ) (s : BatcherState) (op : Op) (hI : Inv cap s) :
    Inv cap (step cap s op).1 := by
  cases op with
  | add p => exact addProduct_inv cap s p hI
  | addMany ps => exact addProducts_inv cap ps s hI
  | flushOp => exact sendBatch_inv cap s hI

theorem step_statsInv (cap : ℚ) (s : BatcherState) (op : Op)
    (h : StatsInv s) : StatsInv (step cap s op).1 := by
  cases op with
  | add p => exact addProduct_statsInv cap s p h
  | addMany ps => exact addProducts_statsInv cap ps s h
  | flushOp => exact sendBatch_statsInv cap s h

theorem step_order (cap : ℚ) (s : BatcherState) (op : Op) :
    (step cap s op).2.flatten ++ (step cap s op).1.currentBatch =
      s.currentBatch ++ opInputs op := by
  cases op with
  | add p => exact addProduct_order cap s p
  | addMany ps => exact addProducts_order cap ps s
  | flushOp => rw [opInputs, List.append_nil]; exact sendBatch_order cap s

theorem step_emit_bound (cap : ℚ) (s : BatcherState) (op : Op)
    (b : List Product) (hI : Inv cap s) (hb : b ∈ (step cap s op).2) :
    b ≠ [] ∧ (2 ≤ b.length → ((stringifyBatch b).length : ℚ) ≤ cap) := by
  cases op with
  | add p =>
    obtain ⟨rfl, hne⟩ := addProduct_emit cap s p b hb
    exact ⟨hne, fun h2 => addProduct_emit_bound cap s p _ hI hb h2⟩
  | addMany ps => exact addProducts_emit_bound cap ps s b hI hb
  | flushOp =>
    obtain ⟨rfl, hne⟩ := sendBatch_emit cap s b hb
    exact ⟨hne, fun h2 => sendBatch_emit_bound cap s _ hI hb h2⟩

theorem step_products (cap : ℚ) (s : BatcherState) (op : Op) :
    (step cap s op).1.totalProductsProcessed =
      s.totalProductsProcessed + ((step cap s op).2.map List.length).sum := by
  cases op with
  | add p => exact addProduct_products cap s p
  | addMany ps => exact addProducts_products cap ps s
  | flushOp => exact sendBatch_products cap s

theorem run_inv (cap : ℚ) :
    ∀ (ops : List Op) (s : BatcherState), Inv cap s → Inv cap (run cap s ops).1
  | [], _, h => h
  | op :: ops, s, h =>
    run_inv cap ops (step cap s op).1 (step_inv cap s op h)

theorem run_statsInv (cap : ℚ) :
    ∀ (ops : List Op) (s : BatcherState), StatsInv s →
      StatsInv (run cap s ops).1
  | [], _, h => h
  | op :: ops, s, h =>
    run_statsInv cap ops (step cap s op).1 (step_statsInv cap s op h)

theorem run_order (cap : ℚ) :
    ∀ (ops : List Op) (s : BatcherState),
      (run cap s ops).2.flatten ++ (run cap s ops).1.currentBatch =
        s.currentBatch ++ runInputs ops
  | [], s => by simp [run, runInputs]
  | op :: ops, s => by
    have ih := run_order cap ops (step cap s op).1
    have h1 := step_order cap s op
    show ((step cap s op).2 ++ (run cap (step cap s op).1 ops).2).flatten ++
        (run cap (step cap s op).1 ops).1.currentBatch =
      s.currentBatch ++ runInputs (op :: ops)
    have hin : runInputs (op :: ops) = opInputs op ++ runInputs ops := by
      simp [runInputs]
    rw [hin, List.flatten_append, List.append_assoc, ih, ← List.append_assoc,
      h1, List.append_assoc]

theorem run_emit_bound (cap : ℚ) :
    ∀ (ops : List Op) (s : BatcherState) (b : List Product), Inv cap s →
      b ∈ (run cap s ops).2 →
      b ≠ [] ∧ (2 ≤ b.length → ((stringifyBatch b).length : ℚ) ≤ cap)
  | [], s, b, _, hb => by simp [run] at hb
  | op :: ops, s, b, hI, hb => by
    have hb' : b ∈ (step cap s op).2 ++ (run cap (step cap s op).1 ops).2 := hb
    rcases List.mem_append.mp hb' with h1 | h2
    · exact step_emit_bound cap s op b hI h1
    · exact run_emit_bound cap ops (step cap s op).1 b (step_inv cap s op hI) h2

theorem run_products (cap : ℚ) :
    ∀ (ops : List Op) (s : BatcherState),
      (run cap s ops).1.totalProductsProcessed =
        s.totalProductsProcessed + ((run cap s ops).2.map List.length).sum
  | [], s => by simp [run]
  | op :: ops, s => by
    have ih := run_products cap ops (step cap s op).1
    have h1 := step_products cap s op
    show (run cap (step cap s op).1 ops).1.totalProductsProcessed =
      s.totalProductsProcessed +
        (((step cap s op).2 ++ (run cap (step cap s op).1 ops).2).map
          List.length).sum
    rw [ih, h1, List.map_append, List.sum_append]
    omega

theorem run_flush_last (cap : ℚ) :
    ∀ (ops : List Op) (s : BatcherState),
      (run cap s (ops ++ [Op.flushOp])).1.currentBatch = []
  | [], s => sendBatch_fst_currentBatch cap s
  | op :: ops, s => run_flush_last cap ops (step cap s op).1

theorem runInputs_append_flush (ops : List Op) :
    runInputs (ops ++ [Op.flushOp]) = runInputs ops := by
  simp [runInputs, opInputs]

theorem run_no_inputs (cap : ℚ) :
    ∀ (ops : List Op) (s : BatcherState), s.currentBatch = [] →
      runInputs ops = [] →
      (run cap s ops).2 = [] ∧ (run cap s ops).1.currentBatch = []
  | [], s, hs, _ => ⟨rfl, hs⟩
  | op :: ops, s, hs, hin => by
    have hsplit : opInputs op = [] ∧ runInputs ops = [] := by
      have : opInputs op ++ runInputs ops = [] := by simpa [runInputs] using hin
      exact List.append_eq_nil.mp this
    have hstep : step cap s op = (s, []) := by
      cases op with
      | add p => simp [opInputs] at hsplit
      | addMany ps =>
        have : ps = [] := hsplit.1
        rw [this]
        rfl
      | flushOp => exact sendBatch_of_empty cap s hs
    have ih := run_no_inputs cap ops s hs hsplit.2
    show ((step cap s op).2 ++ (run cap (step cap s op).1 ops).2 = []) ∧
      (run cap (step cap s op).1 ops).1.currentBatch = []
    rw [hstep]
    simpa using ih

/-! ### Claim theorems -/

/-- C1: for every sequence of addProduct calls (directly or via addProducts)
followed by flush, every batch handed to the sink that contains more than one
record has an exact serialized byte size at most maxSizeBytes. -/
theorem C1_size_bound (cap : ℚ) (ops : List Op) (b : List Product)
    (hb : b ∈ (run cap initState (ops ++ [Op.flushOp])).2)
    (h2 : 1 < b.length) :
    ((stringifyBatch b).length : ℚ) ≤ cap :=
  (run_emit_bound cap (ops ++ [Op.flushOp]) initState b (initState_inv cap) hb).2 h2

theorem C1_size_bound_witness :
    ([[65], [66]] : List Product) ∈
      (run 100 initState ([Op.add [65], Op.add [66]] ++ [Op.flushOp])).2 ∧
    1 < ([[65], [66]] : List Product).length ∧
    ((stringifyBatch [[65], [66]]).length : ℚ) ≤ 100 :=
  ⟨by decide, by decide,
    C1_size_bound 100 [Op.add [65], Op.add [66]] [[65], [66]]
      (by decide) (by decide)⟩

/-- C2: for any input sequence of N records fed through addProduct/addProducts
and then flush, concatenating the emitted batches in emission order yields
exactly the original record sequence, and the record counts across emitted
batches sum to N. -/
theorem C2_order_completeness (cap : ℚ) (ops : List Op) :
    (run cap initState (ops ++ [Op.flushOp])).2.flatten = runInputs ops ∧
    (((run cap initState (ops ++ [Op.flushOp])).2.map List.length).sum =
      (runInputs ops).length) := by
  have ho := run_order cap (ops ++ [Op.flushOp]) initState
  rw [run_flush_last cap ops initState, List.append_nil,
    runInputs_append_flush] at ho
  have ho' : (run cap initState (ops ++ [Op.flushOp])).2.flatten =
      runInputs ops := by
    simpa [initState] using ho
  refine ⟨ho', ?_⟩
  rw [← ho', ← List.length_flatten]

/-- C6: the sink capability is never invoked with an empty-array payload, and
when no record was ever added, no sink call happens at all. -/
theorem C6_no_empty_emission :
    (∀ (cap : ℚ) (ops : List Op) (b : List Product),
      b ∈ (run cap initState ops).2 → b ≠ []) ∧
    (∀ (cap : ℚ) (ops : List Op), runInputs ops = [] →
      (run cap initState ops).2 = []) := by
  constructor
  · intro cap ops b hb
    exact (run_emit_bound cap ops initState b (initState_inv cap) hb).1
  · intro cap ops h
    exact (run_no_inputs cap ops initState rfl h).1

theorem C6_no_empty_emission_witness :
    (([[65]] : List Product) ∈ (run 10 initState [Op.add [65], Op.flushOp]).2 ∧
      ([[65]] : List Product) ≠ []) ∧
    (runInputs [Op.flushOp] = [] ∧ (run 10 initState [Op.flushOp]).2 = []) :=
  ⟨⟨by decide,
      C6_no_empty_emission.1 10 [Op.add [65], Op.flushOp] [[65]] (by decide)⟩,
    ⟨by decide, C6_no_empty_emission.2 10 [Op.flushOp] (by decide)⟩⟩

/-- C7: a second flush with no intervening addProduct performs no sink call,
leaves the state unchanged, and reproduces the same summary. -/
theorem C7_flush_idempotent (cap : ℚ) (s : BatcherState) :
    flush cap (flush cap s).1 = ((flush cap s).1, [], (flush cap s).2.2) := by
  have hb : (sendBatch cap s).1.currentBatch = [] :=
    sendBatch_fst_currentBatch cap s
  simp only [flush]
  rw [sendBatch_of_empty cap (sendBatch cap s).1 hb]

/-- C9: in every reachable state, the tracked currentBatchSize is 0 when the
current batch is empty and equals the exact serialized byte length of the
current batch otherwise: the incremental estimate accumulates no drift. -/
theorem C9_size_invariant (cap : ℚ) (ops : List Op) :
    ((run cap initState ops).1.currentBatch = [] →
      (run cap initState ops).1.currentBatchSize = 0) ∧
    ((run cap initState ops).1.currentBatch ≠ [] →
      (run cap initState ops).1.currentBatchSize =
        (stringifyBatch (run cap initState ops).1.currentBatch).length) :=
  ⟨(run_inv cap ops initState (initState_inv cap)).1,
    (run_inv cap ops initState (initState_inv cap)).2.1⟩

theorem C9_size_invariant_witness :
    (run 10 initState [Op.add [65]]).1.currentBatch ≠ [] ∧
    (run 10 initState [Op.add [65]]).1.currentBatchSize =
      (stringifyBatch (run 10 initState [Op.add [65]]).1.currentBatch).length :=
  ⟨by decide, (C9_size_invariant 10 [Op.add [65]]).2 (by decide)⟩

/-- C10: in every reachable state, fullBatchCount is at most totalBatchesSent,
the full-batch byte total is at most the overall byte total, and
totalProductsProcessed equals the summed record counts of the batches handed
to the sink so far (records pending in the in-progress batch not counted). -/
theorem C10_stats_invariant (cap : ℚ) (ops : List Op) :
    (run cap initState ops).1.fullBatchCount ≤
      (run cap initState ops).1.totalBatchesSent ∧
    (run cap initState ops).1.totalFullBatchesSize ≤
      (run cap initState ops).1.totalSizeProcessed ∧
    (run cap initState ops).1.totalProductsProcessed =
      ((run cap initState ops).2.map List.length).sum := by
  have h1 := run_statsInv cap ops initState initState_statsInv
  have h2 := run_products cap ops initState
  exact ⟨h1.1, h1.2, by simpa [initState] using h2⟩

/-- C5: on every addProduct call that appends to the current batch (the
non-overflow branch), the stored size is recomputed by full re-serialization
exactly when the resulting batch length is at most 3 or a multiple of 100, and
is otherwise the previous size plus the incremental estimate: the record's
serialized byte length plus 1 for the comma when the batch was non-empty. -/
theorem C5_recalibration (cap : ℚ) (s : BatcherState) (p : Product)
    (h : ¬(((s.currentBatchSize + estimateProductSize s.currentBatch p : ℕ) : ℚ) > cap ∧
      s.currentBatch.length > 0)) :
    (addProduct cap s p).1.currentBatchSize =
      if s.currentBatch.length + 1 ≤ 3 ∨ (s.currentBatch.length + 1) % 100 = 0
      then calculateBatchSize (s.currentBatch ++ [p])
      else s.currentBatchSize +
        (p.length + if 0 < s.currentBatch.length then 1 else 0) := by
  rw [addProduct_append cap s p h]
  simp only [List.length_append, List.length_singleton, estimateProductSize,
    gt_iff_lt]

theorem C5_recalibration_witness :
    ¬(((initState.currentBatchSize +
        estimateProductSize initState.currentBatch [65] : ℕ) : ℚ) > 10 ∧
      initState.currentBatch.length > 0) ∧
    (addProduct 10 initState [65]).1.currentBatchSize =
      (if initState.currentBatch.length + 1 ≤ 3 ∨
          (initState.currentBatch.length + 1) % 100 = 0
       then calculateBatchSize (initState.currentBatch ++ [[65]])
       else initState.currentBatchSize +
         (([65] : Product).length +
           if 0 < initState.currentBatch.length then 1 else 0)) :=
  ⟨by decide, C5_recalibration 10 initState [65] (by decide)⟩

/-- C8: an emitted batch is counted as full exactly when its exact serialized
size strictly exceeds 95 percent of maxSizeBytes; the partial-batch count and
bytes are derived at summary time as the totals minus the full-batch counters;
and with zero batches sent the summary is the explicit no-batches report, with
no averaging division performed. -/
theorem C8_full_classification :
    (∀ (cap : ℚ) (s : BatcherState), s.currentBatch ≠ [] →
      ((sendBatch cap s).1.fullBatchCount,
        (sendBatch cap s).1.totalFullBatchesSize) =
        (if cap * (95 / 100) < ((stringifyBatch s.currentBatch).length : ℚ)
         then (s.fullBatchCount + 1,
           s.totalFullBatchesSize + (stringifyBatch s.currentBatch).length)
         else (s.fullBatchCount, s.totalFullBatchesSize))) ∧
    (∀ (cap : ℚ) (s : BatcherState) (d : SummaryDetails),
      printSummary cap s = some d →
        d.nonFullBatches = (s.totalBatchesSent : ℤ) - (s.fullBatchCount : ℤ) ∧
        d.nonFullSize =
          (if (s.totalBatchesSent : ℤ) - (s.fullBatchCount : ℤ) > 0
           then some ((s.totalSizeProcessed : ℤ) - (s.totalFullBatchesSize : ℤ))
           else none)) ∧
    (∀ (cap : ℚ) (s : BatcherState), s.totalBatchesSent = 0 →
      printSummary cap s = none) := by
  refine ⟨?_, ?_, ?_⟩
  · intro cap s h
    simp only [sendBatch]
    rw [if_neg (fun hc => h (List.length_eq_zero.mp hc))]
    simp only [gt_iff_lt]
    split <;> simp
  · intro cap s d hd
    simp only [printSummary] at hd
    split at hd
    · rw [Option.some.injEq] at hd
      subst hd
      exact ⟨rfl, rfl⟩
    · exact absurd hd (by simp)
  · intro cap s h
    simp [printSummary, h]

/-- A concrete statistics state: one batch of one record, 3 bytes, sent. -/
def summaryWitnessState : BatcherState :=
  { currentBatch := []
    currentBatchSize := 0
    totalProductsProcessed := 1
    totalBatchesSent := 1
    totalSizeProcessed := 3
    totalFullBatchesSize := 0
    fullBatchCount := 0 }

theorem C8_full_classification_witness :
    ((run 10 initState [Op.add [65]]).1.currentBatch ≠ [] ∧
      ((sendBatch 10 (run 10 initState [Op.add [65]]).1).1.fullBatchCount,
        (sendBatch 10 (run 10 initState [Op.add [65]]).1).1.totalFullBatchesSize) =
        (if (10 : ℚ) * (95 / 100) <
            ((stringifyBatch (run 10 initState [Op.add [65]]).1.currentBatch).length : ℚ)
         then ((run 10 initState [Op.add [65]]).1.fullBatchCount + 1,
           (run 10 initState [Op.add [65]]).1.totalFullBatchesSize +
             (stringifyBatch (run 10 initState [Op.add [65]]).1.currentBatch).length)
         else ((run 10 initState [Op.add [65]]).1.fullBatchCount,
           (run 10 initState [Op.add [65]]).1.totalFullBatchesSize))) ∧
    (printSummary 10 summaryWitnessState =
        some { avgBatchSize := 3, avgProductsPerBatch := 1,
               overallUtilization := 30, fullInfo := none,
               nonFullBatches := 1, nonFullSize := some 3 } ∧
      ({ avgBatchSize := 3, avgProductsPerBatch := 1,
         overallUtilization := 30, fullInfo := none,
         nonFullBatches := 1, nonFullSize := some 3 } : SummaryDetails).nonFullBatches =
        (summaryWitnessState.totalBatchesSent : ℤ) -
          (summaryWitnessState.fullBatchCount : ℤ)) ∧
    (initState.totalBatchesSent = 0 ∧ printSummary 10 initState = none) :=
  ⟨⟨by decide, C8_full_classification.1 10 (run 10 initState [Op.add [65]]).1 (by decide)⟩,
    ⟨by simp [printSummary, summaryWitnessState]; norm_num,
      (C8_full_classification.2.1 10 summaryWitnessState
        { avgBatchSize := 3, avgProductsPerBatch := 1,
          overallUtilization := 30, fullInfo := none,
          nonFullBatches := 1, nonFullSize := some 3 }
        (by simp [printSummary, summaryWitnessState]; norm_num)).1⟩,
    ⟨rfl, C8_full_classification.2.2 10 initState rfl⟩⟩

/-- True exactly on a raised (error) outcome of the boundary-explicit model. -/
def isError {α : Type} : Except BatcherState α → Bool
  | .error _ => true
  | .ok _ => false

/-- The state visible to the caller after a raised outcome (defaulting to the
fresh state on a normal outcome). -/
def errOr {α : Type} : Except BatcherState α → BatcherState
  | .error e => e
  | .ok _ => initState

/-- C3 counterexample: with a raising sink, flush on an accumulator holding
one 2-byte record propagates the error with the batch already counted in the
statistics, but the current batch is NOT reset to empty at the time of the
sink call: it still holds the record. -/
theorem C3_counterexample :
    isError (flushExc 10 (fun _ => false)
      (run 10 initState [Op.add [65, 66]]).1) = true ∧
    (errOr (flushExc 10 (fun _ => false)
      (run 10 initState [Op.add [65, 66]]).1)).totalBatchesSent = 1 ∧
    (errOr (flushExc 10 (fun _ => false)
      (run 10 initState [Op.add [65, 66]]).1)).totalProductsProcessed = 1 ∧
    (errOr (flushExc 10 (fun _ => false)
      (run 10 initState [Op.add [65, 66]]).1)).currentBatch = [[65, 66]] ∧
    ([[65, 66]] : List Product) ≠ [] :=
  ⟨by decide, by decide, by decide, by decide, by decide⟩

/-- C3 (amended): if the sink raises during batch emission, the error
propagates untouched to the immediate caller of flush (and of addProduct in
its overflow branch); at that point the run statistics already count the
batch as sent (records, batch count, bytes, full classification), while the
current batch is reset only after a successful sink call, so it still holds
the records of the batch whose emission failed. -/
theorem C3_sink_failure (cap : ℚ) (sinkOk : List Product → Bool)
    (s : BatcherState) (h : s.currentBatch ≠ [])
    (hfail : sinkOk s.currentBatch = false) :
    ∃ e : BatcherState,
      flushExc cap sinkOk s = Except.error e ∧
      (∀ p : Product,
        ((s.currentBatchSize + estimateProductSize s.currentBatch p : ℕ) : ℚ) > cap →
        addProductExc cap sinkOk s p = Except.error e) ∧
      e.totalProductsProcessed = s.totalProductsProcessed + s.currentBatch.length ∧
      e.totalBatchesSent = s.totalBatchesSent + 1 ∧
      e.totalSizeProcessed =
        s.totalSizeProcessed + (stringifyBatch s.currentBatch).length ∧
      e.fullBatchCount =
        (if ((stringifyBatch s.currentBatch).length : ℚ) > cap * (95 / 100)
         then s.fullBatchCount + 1 else s.fullBatchCount) ∧
      e.currentBatch = s.currentBatch ∧
      e.currentBatchSize = s.currentBatchSize := by
  have hlen : ¬(s.currentBatch.length = 0) :=
    fun hc => h (List.length_eq_zero.mp hc)
  have hsend : sendBatchExc cap sinkOk s = Except.error
      { s with
        totalProductsProcessed :=
          s.totalProductsProcessed + s.currentBatch.length
        totalBatchesSent := s.totalBatchesSent + 1
        totalSizeProcessed :=
          s.totalSizeProcessed + (stringifyBatch s.currentBatch).length
        totalFullBatchesSize :=
          if ((stringifyBatch s.currentBatch).length : ℚ) > cap * (95 / 100)
          then s.totalFullBatchesSize + (stringifyBatch s.currentBatch).length
          else s.totalFullBatchesSize
        fullBatchCount :=
          if ((stringifyBatch s.currentBatch).length : ℚ) > cap * (95 / 100)
          then s.fullBatchCount + 1 else s.fullBatchCount } := by
    simp only [sendBatchExc]
    rw [if_neg hlen]
    simp [hfail]
  refine ⟨{ s with
      totalProductsProcessed :=
        s.totalProductsProcessed + s.currentBatch.length
      totalBatchesSent := s.totalBatchesSent + 1
      totalSizeProcessed :=
        s.totalSizeProcessed + (stringifyBatch s.currentBatch).length
      totalFullBatchesSize :=
        if ((stringifyBatch s.currentBatch).length : ℚ) > cap * (95 / 100)
        then s.totalFullBatchesSize + (stringifyBatch s.currentBatch).length
        else s.totalFullBatchesSize
      fullBatchCount :=
        if ((stringifyBatch s.currentBatch).length : ℚ) > cap * (95 / 100)
        then s.fullBatchCount + 1 else s.fullBatchCount },
    ?_, ?_, rfl, rfl, rfl, rfl, rfl, rfl⟩
  · simp only [flushExc, hsend]
  · intro p hp
    have hcond : ((s.currentBatchSize + estimateProductSize s.currentBatch p : ℕ) : ℚ) > cap ∧
        s.currentBatch.length > 0 := ⟨hp, List.length_pos.mpr h⟩
    simp only [addProductExc]
    rw [if_pos hcond, hsend]

theorem C3_sink_failure_witness :
    (run 10 initState [Op.add [65, 66]]).1.currentBatch ≠ [] ∧
    ((fun _ => false) : List Product → Bool)
      ((run 10 initState [Op.add [65, 66]]).1.currentBatch) = false ∧
    (∃ e : BatcherState,
      flushExc 10 (fun _ => false)
        (run 10 initState [Op.add [65, 66]]).1 = Except.error e ∧
      (∀ p : Product,
        (((run 10 initState [Op.add [65, 66]]).1.currentBatchSize +
          estimateProductSize
            (run 10 initState [Op.add [65, 66]]).1.currentBatch p : ℕ) : ℚ) > 10 →
        addProductExc 10 (fun _ => false)
          (run 10 initState [Op.add [65, 66]]).1 p = Except.error e) ∧
      e.totalProductsProcessed =
        (run 10 initState [Op.add [65, 66]]).1.totalProductsProcessed +
          (run 10 initState [Op.add [65, 66]]).1.currentBatch.length ∧
      e.totalBatchesSent =
        (run 10 initState [Op.add [65, 66]]).1.totalBatchesSent + 1 ∧
      e.totalSizeProcessed =
        (run 10 initState [Op.add [65, 66]]).1.totalSizeProcessed +
          (stringifyBatch
            (run 10 initState [Op.add [65, 66]]).1.currentBatch).length ∧
      e.fullBatchCount =
        (if ((stringifyBatch
              (run 10 initState [Op.add [65, 66]]).1.currentBatch).length : ℚ) >
            10 * (95 / 100)
         then (run 10 initState [Op.add [65, 66]]).1.fullBatchCount + 1
         else (run 10 initState [Op.add [65, 66]]).1.fullBatchCount) ∧
      e.currentBatch = (run 10 initState [Op.add [65, 66]]).1.currentBatch ∧
      e.currentBatchSize =
        (run 10 initState [Op.add [65, 66]]).1.currentBatchSize) :=
  ⟨by decide, rfl,
    C3_sink_failure 10 (fun _ => false)
      (run 10 initState [Op.add [65, 66]]).1 (by decide) rfl⟩

/-- C4 counterexample: with cap 10 bytes, a single 9-byte record (own size
9 ≤ 10) is emitted as a batch whose exact serialized size 11 exceeds the cap
because of the 2 bracket bytes, so an over-cap batch does not require a record
whose own serialized size exceeds the cap. -/
theorem C4_counterexample :
    (run 10 initState
        [Op.add [65, 65, 65, 65, 65, 65, 65, 65, 65], Op.flushOp]).2 =
      [[[65, 65, 65, 65, 65, 65, 65, 65, 65]]] ∧
    (10 : ℚ) <
      ((stringifyBatch [[65, 65, 65, 65, 65, 65, 65, 65, 65]]).length : ℚ) ∧
    (([65, 65, 65, 65, 65, 65, 65, 65, 65] : Product).length : ℚ) ≤ 10 :=
  ⟨by decide, by decide, by decide⟩

/-- C4 (amended): a record whose own serialized size exceeds maxSizeBytes is
placed alone into a batch of exactly one record and emitted over-cap without
error, rejection or splitting; and any emitted batch whose exact serialized
size exceeds the cap contains exactly one record — but such a singleton can
exceed the cap even when the record's own size is at most the cap, since the
serialized batch adds 2 bracket bytes. -/
theorem C4_oversized_alone :
    (∀ (cap : ℚ) (s : BatcherState) (p : Product), cap < (p.length : ℚ) →
      (addProduct cap s p).1.currentBatch = [p] ∧
      (flush cap (addProduct cap s p).1).2.1 = [[p]] ∧
      cap < ((stringifyBatch [p]).length : ℚ)) ∧
    (∀ (cap : ℚ) (ops : List Op) (b : List Product),
      b ∈ (run cap initState ops).2 →
      cap < ((stringifyBatch b).length : ℚ) → b.length = 1) := by
  constructor
  · intro cap s p hp
    have hEst : p.length ≤ s.currentBatchSize + estimateProductSize s.currentBatch p := by
      simp only [estimateProductSize]
      omega
    have hgt : ((s.currentBatchSize + estimateProductSize s.currentBatch p : ℕ) : ℚ) > cap :=
      lt_of_lt_of_le hp (Nat.cast_le.mpr hEst)
    have hbatch : (addProduct cap s p).1.currentBatch = [p] := by
      by_cases h0 : s.currentBatch.length > 0
      · rw [addProduct_overflow cap s p ⟨hgt, h0⟩]
      · have hnil : s.currentBatch = [] := List.length_eq_zero.mp (by omega)
        rw [addProduct_append cap s p (fun hc => h0 hc.2)]
        simp [hnil]
    refine ⟨hbatch, ?_, ?_⟩
    · show (sendBatch cap (addProduct cap s p).1).2 = [[p]]
      rw [sendBatch_snd cap _ (by rw [hbatch]; simp), hbatch]
    · rw [stringifyBatch_singleton]
      push_cast
      linarith
  · intro cap ops b hb hover
    obtain ⟨hne, hbound⟩ := run_emit_bound cap ops initState b (initState_inv cap) hb
    by_contra hlen
    have h1 : 0 < b.length := List.length_pos.mpr hne
    have h2 : 2 ≤ b.length := by omega
    exact absurd hover (not_lt.mpr (hbound h2))

theorem C4_oversized_alone_witness :
    ((10 : ℚ) <
        (([65, 65, 65, 65, 65, 65, 65, 65, 65, 65, 65] : Product).length : ℚ) ∧
      ((addProduct 10 initState
          [65, 65, 65, 65, 65, 65, 65, 65, 65, 65, 65]).1.currentBatch =
        [[65, 65, 65, 65, 65, 65, 65, 65, 65, 65, 65]] ∧
      (flush 10 (addProduct 10 initState
          [65, 65, 65, 65, 65, 65, 65, 65, 65, 65, 65]).1).2.1 =
        [[[65, 65, 65, 65, 65, 65, 65, 65, 65, 65, 65]]] ∧
      (10 : ℚ) <
        ((stringifyBatch [[65, 65, 65, 65, 65, 65, 65, 65, 65, 65, 65]]).length : ℚ))) ∧
    (([[65, 65, 65, 65, 65, 65, 65, 65, 65, 65, 65]] : List Product) ∈
        (run 10 initState [Op.add [65, 65, 65, 65, 65, 65, 65, 65, 65, 65, 65],
          Op.flushOp]).2 ∧
      (10 : ℚ) <
        ((stringifyBatch [[65, 65, 65, 65, 65, 65, 65, 65, 65, 65, 65]]).length : ℚ) ∧
      ([[65, 65, 65, 65, 65, 65, 65, 65, 65, 65, 65]] : List Product).length = 1) :=
  ⟨⟨by decide,
      C4_oversized_alone.1 10 initState
        [65, 65, 65, 65, 65, 65, 65, 65, 65, 65, 65] (by decide)⟩,
    ⟨by decide, by decide,
      C4_oversized_alone.2 10
        [Op.add [65, 65, 65, 65, 65, 65, 65, 65, 65, 65, 65], Op.flushOp]
        [[65, 65, 65, 65, 65, 65, 65, 65, 65, 65, 65]]
        (by decide) (by decide)⟩⟩

end Batcher
